import Mathlib

/-!
Shallow embedding of the dispatch and aggregation core of
src/utils/logger.py: the Logger accumulation state and its operations
(record, record_mean, dump, log, set_level, close), the exclusion
filtering performed by the key-value writers HumanOutputFormat and
TensorBoardOutputFormat, and the human-readable table rendering.

Python dictionaries are modelled as association lists (key order is the
insertion order, as in Python); defaultdict reads become getD with the
default value, with explicit materialization (vivifyA) where a read of a
missing key mutates the dict.  Numbers are modelled as rationals, so the
incremental-mean arithmetic is exact.  Exceptions are modelled by
returning the post-call state together with an optional error.
-/

/-- Severity level DEBUG = 10. -/
def DEBUG : Nat := 10

/-- Severity level INFO = 20. -/
def INFO : Nat := 20

/-- Severity level WARN = 30. -/
def WARN : Nat := 30

/-- Severity level ERROR = 40. -/
def ERROR : Nat := 40

/-- Severity level DISABLED = 50. -/
def DISABLED : Nat := 50

/-- Runtime values stored in the value map of the logger.  Numbers are
modelled as rationals (num); str models Python strings; pynone models the
Python value None, as stored by a record_mean call with a null value;
video, figure and image model instances of the Video, Figure and Image
wrapper classes (their payloads play no role in any claim and are
elided). -/
inductive PyVal where
  | num (q : ℚ)
  | str (s : String)
  | pynone
  | video
  | figure
  | image
deriving DecidableEq

/-- An exclusion spec as passed to record and record_mean: Python None
(absent), a single backend-name string, or a tuple of backend-name
strings. -/
inductive Exclude where
  | absent
  | str (s : String)
  | tup (ts : List String)
deriving DecidableEq

/-- Errors raised by the modelled code: typeError models the Python
TypeError raised by the mean-update arithmetic on a non-numeric stored
value, and formatUnsupported models FormatUnsupportedError with its
constructor arguments. -/
inductive PyErr where
  | typeError
  | formatUnsupported (unsupported_formats : List String) (value_description : String)
deriving DecidableEq

/-- Lexicographic comparison of character lists by code point, mirroring
the Python string comparison used by sorted. -/
def charsLe : List Char → List Char → Bool
  | [], _ => true
  | _ :: _, [] => false
  | a :: as, b :: bs =>
    if a.toNat < b.toNat then true
    else if b.toNat < a.toNat then false
    else charsLe as bs

/-- String comparison by code points, mirroring Python. -/
def strLe (a b : String) : Bool := charsLe a.data b.data

/-- Containment of one character list in another as a contiguous
sublist. -/
def charsContains : List Char → List Char → Bool
  | [], needle => needle.isEmpty
  | h :: t, needle => needle.isPrefixOf (h :: t) || charsContains t needle

/-- The Python substring test: pyIn needle hay models the Python
expression needle in hay for strings. -/
def pyIn (needle hay : String) : Bool := charsContains hay.data needle.data

/-- Test whether an exclusion spec is the Python value None. -/
def Exclude.isAbsent : Exclude → Bool
  | .absent => true
  | _ => false

/-- The Python membership test tok in excluded on an exclusion spec: a
substring test when the spec is a single string, an element test when it
is a tuple. -/
def Exclude.hasTok : Exclude → String → Bool
  | .absent, _ => false
  | .str s, tok => pyIn tok s
  | .tup ts, tok => ts.contains tok

/-- Dictionary lookup on an association list (first match; keys are
unique in every dict the code builds). -/
def lookupA {α : Type} : List (String × α) → String → Option α
  | [], _ => Option.none
  | (k2, v) :: rest, k => if k2 = k then some v else lookupA rest k

/-- Dictionary assignment d[k] = v: replaces the value in place when the
key is present, appends the pair otherwise (Python dicts keep insertion
order). -/
def insertA {α : Type} : List (String × α) → String → α → List (String × α)
  | [], k, v => [(k, v)]
  | (k2, v2) :: rest, k, v =>
    if k2 = k then (k, v) :: rest else (k2, v2) :: insertA rest k v

/-- Read of a defaultdict entry: the stored value, or the default. -/
def getDA {α : Type} (m : List (String × α)) (k : String) (d : α) : α :=
  (lookupA m k).getD d

/-- A defaultdict read of a missing key also materializes the entry with
the default value; vivifyA is that mutation. -/
def vivifyA {α : Type} (m : List (String × α)) (k : String) (d : α) :
    List (String × α) :=
  match lookupA m k with
  | some _ => m
  | Option.none => insertA m k d

/-- Key membership in a dict. -/
def hasKeyA {α : Type} (m : List (String × α)) (k : String) : Bool :=
  (lookupA m k).isSome

/-- Ordering of strings as a relation, for sortedness statements. -/
def strLeP (a b : String) : Prop := strLe a b = true

/-- Ordering of dict items by key, as used by the Python expression
sorted(d.items()) (keys are unique in every dict the code builds, so the
tuple comparison never reaches the values). -/
def leKey {α : Type} (p q : String × α) : Prop := strLeP p.1 q.1

instance {α : Type} : DecidableRel (@leKey α) := fun _ _ =>
  Bool.decEq _ true

/-- Model of the Python expression sorted(d.items()): the items of the
dict sorted by key. -/
def sortByKey {α : Type} (l : List (String × α)) : List (String × α) :=
  List.insertionSort leKey l

instance {α β : Type} [DecidableEq α] [DecidableEq β] :
    DecidableEq (Except α β) := fun a b =>
  match a, b with
  | .ok x, .ok y =>
    if h : x = y then .isTrue (by rw [h])
    else .isFalse (by intro hc; cases hc; exact h rfl)
  | .error x, .error y =>
    if h : x = y then .isTrue (by rw [h])
    else .isFalse (by intro hc; cases hc; exact h rfl)
  | .ok _, .error _ => .isFalse (by intro hc; cases hc)
  | .error _, .ok _ => .isFalse (by intro hc; cases hc)

/-- Events emitted through the SummaryWriter by
TensorBoardOutputFormat.write: one constructor per add call in the
source.  A numeric value is an np.ScalarType and not a str, so it goes to
add_scalar; a str goes to add_text; None is not an np.ScalarType and
produces no call; Video, Figure and Image go to their add calls. -/
inductive TBEvent where
  | scalar (key : String) (value : ℚ) (step : Nat)
  | text (key : String) (value : String) (step : Nat)
  | video (key : String) (step : Nat)
  | figure (key : String) (step : Nat)
  | image (key : String) (step : Nat)
deriving DecidableEq

/-- The key an event was written under. -/
def TBEvent.key : TBEvent → String
  | .scalar k _ _ => k
  | .text k _ _ => k
  | .video k _ => k
  | .figure k _ => k
  | .image k _ => k

/-- The SummaryWriter calls made for one non-skipped key-value pair, per
the chain of isinstance dispatches in TensorBoardOutputFormat.write. -/
def tbEvents (key : String) (value : PyVal) (step : Nat) : List TBEvent :=
  match value with
  | .num q => [.scalar key q step]
  | .str s => [.text key s step]
  | .pynone => []
  | .video => [.video key step]
  | .figure => [.figure key step]
  | .image => [.image key step]

namespace TensorBoardOutputFormat

/-- One iteration of the loop in TensorBoardOutputFormat.write: the pair
p couples one item of sorted(key_values.items()) with one item of
sorted(key_excluded.items()); the key is skipped when its paired spec is
not None and contains the token tensorboard. -/
def writeStep (step : Nat) (acc : List TBEvent)
    (p : (String × PyVal) × (String × Exclude)) : List TBEvent :=
  if (!p.2.2.isAbsent) && p.2.2.hasTok "tensorboard" then acc
  else acc ++ tbEvents p.1.1 p.1.2 step

/-- Model of TensorBoardOutputFormat.write: zips the two sorted item
lists and folds the loop body, returning the SummaryWriter calls made. -/
def write (key_values : List (String × PyVal))
    (key_excluded : List (String × Exclude)) (step : Nat) : List TBEvent :=
  ((sortByKey key_values).zip (sortByKey key_excluded)).foldl (writeStep step) []

end TensorBoardOutputFormat

namespace HumanOutputFormat

/-- Model of HumanOutputFormat._truncate: a string longer than max_length
keeps its first max_length - 3 characters and gains an ellipsis marker.
Faithful for max_length at least 3 (the default is 36; a smaller bound
would make the Python slice index negative). -/
def truncate (max_length : Nat) (s : String) : String :=
  if s.data.length > max_length then
    String.mk (s.data.take (max_length - 3)) ++ "..."
  else s

/-- String conversion of a value reaching the formatting branch of
HumanOutputFormat.write.  A numeric value is rendered by fmtFloat, which
abstracts the 8-wide 3-significant-digit float format of the source (no
claim depends on the digits produced); media values never reach this
point because the loop raises first. -/
def strOfVal (fmtFloat : ℚ → String) : PyVal → String
  | .num q => fmtFloat q
  | .str s => s
  | .pynone => "None"
  | _ => ""

/-- Index of the first slash of a key, mirroring key.find. -/
def slashIdx (key : String) : Option Nat :=
  key.data.findIdx? (· = '/')

/-- Loop state of HumanOutputFormat.write: the accumulated rows, the
current tag (persisting across iterations) and the set of tags already
given a header row. -/
structure WriteAcc where
  key2str : List (String × String)
  tag : Option String
  tags : List String
deriving DecidableEq

/-- The tag block of the loop in HumanOutputFormat.write: when the key
has a slash at a positive index, the tag becomes the prefix of the key up
to and including the first slash, and a tag seen for the first time gets
a header row appended (truncated, with an empty value column). -/
def tagUpdate (max_length : Nat) (acc : WriteAcc) (key : String) : WriteAcc :=
  match slashIdx key with
  | some i =>
    if 0 < i then
      let tag := String.mk (key.data.take (i + 1))
      if acc.tags.contains tag then { acc with tag := some tag }
      else
        { acc with
          tag := some tag,
          tags := acc.tags ++ [tag],
          key2str := acc.key2str ++ [(truncate max_length tag, "")] }
    else acc
  | Option.none => acc

/-- The tag-stripping block of the loop: when a current tag exists and
occurs in the key (a substring test in the source), the key is displayed
as three spaces followed by the key with the first length-of-tag
characters removed. -/
def stripTag (tag : Option String) (key : String) : String :=
  match tag with
  | some t =>
    if pyIn t key then "   " ++ String.mk (key.data.drop t.data.length)
    else key
  | Option.none => key

/-- One iteration of the loop in HumanOutputFormat.write over a zipped
pair of items: skip when the paired spec is not None and contains stdout
or log (both instances of this class run this same test); raise
FormatUnsupportedError on media values; otherwise format the value,
maybe open a new tag header row, strip a current tag that occurs in the
key, and append the truncated row. -/
def writeStep (max_length : Nat) (fmtFloat : ℚ → String) (acc : WriteAcc)
    (p : (String × PyVal) × (String × Exclude)) : Except PyErr WriteAcc :=
  let key := p.1.1
  let excluded := p.2.2
  if (!excluded.isAbsent) && (excluded.hasTok "stdout" || excluded.hasTok "log") then
    .ok acc
  else
    match p.1.2 with
    | .video => .error (.formatUnsupported ["stdout", "log"] "video")
    | .figure => .error (.formatUnsupported ["stdout", "log"] "figure")
    | .image => .error (.formatUnsupported ["stdout", "log"] "image")
    | v =>
      let acc1 := tagUpdate max_length acc key
      .ok { acc1 with
            key2str := acc1.key2str ++
              [(truncate max_length (stripTag acc1.tag key),
                truncate max_length (strOfVal fmtFloat v))] }

/-- The loop of HumanOutputFormat.write: fold of writeStep that stops at
the first raised error. -/
def foldWrite (max_length : Nat) (fmtFloat : ℚ → String) :
    WriteAcc → List ((String × PyVal) × (String × Exclude)) → Except PyErr WriteAcc
  | acc, [] => .ok acc
  | acc, p :: ps =>
    match writeStep max_length fmtFloat acc p with
    | .ok acc2 => foldWrite max_length fmtFloat acc2 ps
    | .error e => .error e

/-- A run of n space characters. -/
def spaces (n : Nat) : String := String.mk (List.replicate n ' ')

/-- A run of n dash characters. -/
def dashLine (n : Nat) : String := String.mk (List.replicate n '-')

/-- Model of HumanOutputFormat.write, returning the lines written to the
file.  An empty key2str list is the empty-dict warning path: the method
warns and returns without writing, modelled as no lines.  Otherwise the
column widths are the longest truncated key and value present, and each
row is padded to them between box borders. -/
def write (max_length : Nat) (fmtFloat : ℚ → String)
    (key_values : List (String × PyVal))
    (key_excluded : List (String × Exclude)) (_step : Nat) :
    Except PyErr (List String) :=
  match foldWrite max_length fmtFloat ⟨[], Option.none, []⟩
      ((sortByKey key_values).zip (sortByKey key_excluded)) with
  | .error e => .error e
  | .ok acc =>
    if acc.key2str.isEmpty then .ok []
    else
      let key_width := (acc.key2str.map (fun r => r.1.data.length)).foldl max 0
      let val_width := (acc.key2str.map (fun r => r.2.data.length)).foldl max 0
      let rows := acc.key2str.map (fun r =>
        "| " ++ r.1 ++ spaces (key_width - r.1.data.length) ++ " | " ++
          r.2 ++ spaces (val_width - r.2.data.length) ++ " |")
      .ok ([dashLine (key_width + val_width + 7)] ++ rows ++
        [dashLine (key_width + val_width + 7)])

end HumanOutputFormat

/-- The accumulation state owned by a Logger instance: the three parallel
maps of Logger.__init__ plus the severity threshold (the adapter list and
output directory are passed separately where needed). -/
structure LoggerState where
  name_to_value : List (String × PyVal)
  name_to_count : List (String × Nat)
  name_to_excluded : List (String × Exclude)
  level : Nat
deriving DecidableEq

/-- The state built by Logger.__init__: three empty defaultdicts and
level INFO. -/
def initLogger : LoggerState := ⟨[], [], [], INFO⟩

/-- A backend adapter as the Logger core sees it: name identifies the
adapter, isKV and isSeq model the isinstance capability checks against
KVWriter and SeqWriter, writeRes gives the outcome of its write on the
given maps and step (no error, or a raised error), and closeRes the
outcome of its close. -/
structure Adapter where
  name : String
  isKV : Bool
  isSeq : Bool
  writeRes : List (String × PyVal) → List (String × Exclude) → Nat → Option PyErr
  closeRes : Option PyErr

namespace Logger

/-- Logger.record: unconditionally overwrite the stored value and the
stored exclusion spec of the key. -/
def record (st : LoggerState) (key : String) (value : PyVal)
    (exclude : Exclude) : LoggerState :=
  { st with
    name_to_value := insertA st.name_to_value key value,
    name_to_excluded := insertA st.name_to_excluded key exclude }

/-- Logger.record_mean: a null value stores None for the key and returns
at once, leaving count and exclusion untouched.  Otherwise the stored
value and the count are read through the defaultdict (materializing
missing entries), the incremental mean old * n / (n + 1) + v / (n + 1) is
stored, the count becomes n + 1 and the exclusion spec is overwritten.
When the stored value is not a number (None after a null call, or any
non-numeric value) the arithmetic raises a TypeError after the
defaultdict reads have materialized their entries. -/
def record_mean (st : LoggerState) (key : String) (value : PyVal)
    (exclude : Exclude) : LoggerState × Option PyErr :=
  if value = PyVal.pynone then
    ({ st with name_to_value := insertA st.name_to_value key PyVal.pynone },
      Option.none)
  else
    let old_val := getDA st.name_to_value key (PyVal.num 0)
    let count := getDA st.name_to_count key 0
    match old_val, value with
    | PyVal.num q, PyVal.num x =>
      ({ st with
         name_to_value := insertA st.name_to_value key
           (PyVal.num (q * (count : ℚ) / ((count : ℚ) + 1) + x / ((count : ℚ) + 1))),
         name_to_count := insertA st.name_to_count key (count + 1),
         name_to_excluded := insertA st.name_to_excluded key exclude },
        Option.none)
    | _, _ =>
      ({ st with
         name_to_value := vivifyA st.name_to_value key (PyVal.num 0),
         name_to_count := vivifyA st.name_to_count key 0 },
        some PyErr.typeError)

/-- The loop of Logger.dump over the output formats: each adapter passing
the KVWriter capability check is written to with the whole value map, the
whole exclusion map and the step; the first raised error aborts the loop
and propagates. -/
def writeAll (vals : List (String × PyVal)) (excl : List (String × Exclude))
    (step : Nat) : List Adapter → Option PyErr
  | [] => Option.none
  | f :: rest =>
    if f.isKV then
      match f.writeRes vals excl step with
      | some e => some e
      | Option.none => writeAll vals excl step rest
    else writeAll vals excl step rest

/-- Logger.dump: a no-op when the level is DISABLED; otherwise every
KVWriter adapter is invoked once, and only after the loop finishes
normally are the three maps cleared.  A raised error propagates to the
caller with the maps left as they were. -/
def dump (st : LoggerState) (output_formats : List Adapter) (step : Nat) :
    LoggerState × Option PyErr :=
  if st.level = DISABLED then (st, Option.none)
  else
    match writeAll st.name_to_value st.name_to_excluded step output_formats with
    | some e => (st, some e)
    | Option.none =>
      ({ st with
         name_to_value := [],
         name_to_count := [],
         name_to_excluded := [] }, Option.none)

/-- Logger.close: close each adapter in registration order.  The result
records, in order, the adapters whose close was invoked, and the first
raised error; the plain for loop stops at the first error, so later
adapters are not closed. -/
def close : List Adapter → List String × Option PyErr
  | [] => ([], Option.none)
  | f :: rest =>
    match f.closeRes with
    | some e => ([f.name], some e)
    | Option.none =>
      let r := close rest
      (f.name :: r.1, r.2)

/-- Logger._do_log: forward the stringified arguments to every adapter
passing the SeqWriter capability check, returning which adapter got which
sequence. -/
def do_log (output_formats : List Adapter) (args : List String) :
    List (String × List String) :=
  (output_formats.filter (·.isSeq)).map (fun f => (f.name, args))

/-- Logger.log: forward the arguments when the threshold allows the
level; the accumulation state is returned untouched (the method reads
only the level). -/
def log (st : LoggerState) (output_formats : List Adapter)
    (args : List String) (level : Nat) :
    LoggerState × List (String × List String) :=
  if st.level ≤ level then (st, do_log output_formats args) else (st, [])

/-- Logger.set_level. -/
def set_level (st : LoggerState) (level : Nat) : LoggerState :=
  { st with level := level }

/-- A sequence of record_mean calls on one key with numeric values and a
fixed exclusion argument, stopping at the first raised error (as the
exception would abort the calling loop). -/
def runMeans (key : String) (ex : Exclude) :
    LoggerState → List ℚ → LoggerState × Option PyErr
  | st, [] => (st, Option.none)
  | st, v :: vs =>
    match record_mean st key (PyVal.num v) ex with
    | (st2, Option.none) => runMeans key ex st2 vs
    | (st2, some e) => (st2, some e)

end Logger

/-- The exclusion half of the accumulation invariant: every key present
in the value map has an entry (possibly the null spec) in the exclusion
map. -/
def KeyInv (st : LoggerState) : Prop :=
  ∀ k, hasKeyA st.name_to_value k = true → hasKeyA st.name_to_excluded k = true

/-- One Logger operation, for stating invariants over whole call
sequences. -/
inductive LogOp where
  | record (k : String) (v : PyVal) (ex : Exclude)
  | record_mean (k : String) (v : PyVal) (ex : Exclude)
  | dump (fmts : List Adapter) (step : Nat)
  | log (fmts : List Adapter) (args : List String) (lvl : Nat)
  | set_level (lvl : Nat)

/-- The state transition of one Logger operation (the state component of
each call). -/
def Logger.applyOp (st : LoggerState) : LogOp → LoggerState
  | .record k v ex => Logger.record st k v ex
  | .record_mean k v ex => (Logger.record_mean st k v ex).1
  | .dump fmts step => (Logger.dump st fmts step).1
  | .log fmts args lvl => (Logger.log st fmts args lvl).1
  | .set_level lvl => Logger.set_level st lvl

/-- The state after a sequence of Logger operations. -/
def Logger.runOps (st : LoggerState) (ops : List LogOp) : LoggerState :=
  ops.foldl Logger.applyOp st

/-- Whether a dump call on this state actually clears the accumulation
maps: the level is not DISABLED and no key-value adapter write raises. -/
def Logger.dumpCleared (st : LoggerState) (fmts : List Adapter)
    (step : Nat) : Bool :=
  (st.level != DISABLED) &&
    (Logger.writeAll st.name_to_value st.name_to_excluded step fmts).isNone

/-- The keys on which record_mean with a non-null value has been called
since the last state-clearing dump: extended by non-null record_mean
calls, reset by a dump exactly when that dump clears the state. -/
def Logger.touchedClearing (st : LoggerState) (acc : List String) :
    LogOp → List String
  | .record_mean k v _ => if v = PyVal.pynone then acc else k :: acc
  | .dump fmts step => if Logger.dumpCleared st fmts step then [] else acc
  | _ => acc

/-- A sequence of operations run together with the touched-key
accumulator of touchedClearing. -/
def Logger.runOpsT : LoggerState × List String → List LogOp →
    LoggerState × List String
  | p, [] => p
  | (st, acc), op :: ops =>
    Logger.runOpsT (Logger.applyOp st op, Logger.touchedClearing st acc op) ops

/-- The keys on which record_mean with a non-null value has been called
since the last dump call, under the plain reading where every dump call
ends the accumulation cycle. -/
def touchedPlain (acc : List String) : LogOp → List String
  | .record_mean k v _ => if v = PyVal.pynone then acc else k :: acc
  | .dump _ _ => []
  | _ => acc

/-- The touchedPlain accumulator over a whole operation sequence. -/
def meanTouchedPlain (ops : List LogOp) : List String :=
  ops.foldl touchedPlain []

/-- A key-value adapter whose write raises. -/
def failingWriter : Adapter :=
  ⟨"failing", true, false, fun _ _ _ => some PyErr.typeError, Option.none⟩

/-- A key-value adapter whose write and close both succeed. -/
def okWriter : Adapter :=
  ⟨"ok", true, false, fun _ _ _ => Option.none, Option.none⟩

/-- An adapter whose close raises. -/
def failingCloser : Adapter :=
  ⟨"failclose", true, false, fun _ _ _ => Option.none, some PyErr.typeError⟩

/-- The state after record("k", 1) on a fresh logger. -/
def oneKeyState : LoggerState :=
  Logger.record initLogger "k" (PyVal.num 1) Exclude.absent

/-- The state after record_mean("k", 3) followed by record_mean("k",
None) on a fresh logger. -/
def nullAfterMeanState : LoggerState :=
  (Logger.record_mean
    (Logger.record_mean initLogger "k" (PyVal.num 3) Exclude.absent).1
    "k" PyVal.pynone Exclude.absent).1

/-- The state after record_mean("k", None) on a fresh logger. -/
def nullOnlyState : LoggerState :=
  (Logger.record_mean initLogger "k" PyVal.pynone Exclude.absent).1

/-- The state after record_mean("k", 3, exclude "wandb") followed by
record_mean("k", None, exclude "tensorboard") on a fresh logger. -/
def exclOverwriteState : LoggerState :=
  (Logger.record_mean
    (Logger.record_mean initLogger "k" (PyVal.num 3) (Exclude.str "wandb")).1
    "k" PyVal.pynone (Exclude.str "tensorboard")).1

/-- The state after record_mean("a", None); record("b", 2, exclude
"tensorboard"); record("c", 3) on a fresh logger: the value map has keys
a, b, c but the exclusion map only b, c. -/
def misalignedState : LoggerState :=
  Logger.record
    (Logger.record
      (Logger.record_mean initLogger "a" PyVal.pynone Exclude.absent).1
      "b" (PyVal.num 2) (Exclude.str "tensorboard"))
    "c" (PyVal.num 3) Exclude.absent

/-- An aligned pair of maps over the keys a and b, with a excluded for
the tensorboard backend. -/
def kvW : List (String × PyVal) := [("a", PyVal.num 1), ("b", PyVal.num 2)]

/-- The exclusion map paired with kvW. -/
def keW : List (String × Exclude) :=
  [("a", Exclude.str "tensorboard"), ("b", Exclude.absent)]

/-- An exclusion map paired with kvW in which a is excluded for the
stdout backend. -/
def keWH : List (String × Exclude) :=
  [("a", Exclude.str "stdout"), ("b", Exclude.absent)]

/-- A call sequence whose dump is aborted by a failing adapter: a
non-null record_mean on k followed by a dump whose only adapter
raises. -/
def leakTrace : List LogOp :=
  [LogOp.record_mean "k" (PyVal.num 1) Exclude.absent,
   LogOp.dump [failingWriter] 0]

/-- A run of 36 letters a, for the truncation-collision instance of the
spec. -/
def aRun : String := String.mk (List.replicate 36 'a')

/-!
Helper lemmas: the code-point order on strings, sortedness of sortByKey,
and the behaviour of the dict operations.
-/

theorem charsLe_total : ∀ as bs, charsLe as bs = true ∨ charsLe bs as = true
  | [], _ => Or.inl rfl
  | _ :: _, [] => Or.inr rfl
  | a :: as, b :: bs => by
    by_cases h1 : a.toNat < b.toNat
    · left
      simp [charsLe, h1]
    · by_cases h2 : b.toNat < a.toNat
      · right
        simp [charsLe, h2]
      · rcases charsLe_total as bs with ih | ih
        · left
          simp [charsLe, h1, h2, ih]
        · right
          simp [charsLe, h1, h2, ih]

theorem charsLe_trans : ∀ as bs cs, charsLe as bs = true → charsLe bs cs = true →
    charsLe as cs = true
  | [], _, _, _, _ => rfl
  | _ :: _, [], _, h1, _ => by simp [charsLe] at h1
  | _ :: _, _ :: _, [], _, h2 => by simp [charsLe] at h2
  | a :: as, b :: bs, c :: cs, h1, h2 => by
    simp only [charsLe] at h1 h2 ⊢
    by_cases hab : a.toNat < b.toNat
    · by_cases hbc : b.toNat < c.toNat
      · simp [show a.toNat < c.toNat by omega]
      · by_cases hcb : c.toNat < b.toNat
        · simp [hbc, hcb] at h2
        · simp [show a.toNat < c.toNat by omega]
    · by_cases hba : b.toNat < a.toNat
      · simp [hab, hba] at h1
      · by_cases hbc : b.toNat < c.toNat
        · simp [show a.toNat < c.toNat by omega]
        · by_cases hcb : c.toNat < b.toNat
          · simp [hbc, hcb] at h2
          · rw [if_neg hab, if_neg hba] at h1
            rw [if_neg hbc, if_neg hcb] at h2
            rw [if_neg (show ¬ (a.toNat < c.toNat) by omega),
              if_neg (show ¬ (c.toNat < a.toNat) by omega)]
            exact charsLe_trans as bs cs h1 h2

theorem charsLe_antisymm : ∀ as bs, charsLe as bs = true → charsLe bs as = true →
    as = bs
  | [], [], _, _ => rfl
  | [], _ :: _, _, h2 => by simp [charsLe] at h2
  | _ :: _, [], h1, _ => by simp [charsLe] at h1
  | a :: as, b :: bs, h1, h2 => by
    simp only [charsLe] at h1 h2
    by_cases hab : a.toNat < b.toNat
    · simp [show ¬ (b.toNat < a.toNat) by omega, hab] at h2
    · by_cases hba : b.toNat < a.toNat
      · simp [hab, hba] at h1
      · have hn : a.toNat = b.toNat := by omega
        have heq : a = b := Char.eq_of_val_eq (UInt32.toNat.inj hn)
        simp [hab, hba] at h1 h2
        rw [heq, charsLe_antisymm as bs h1 h2]

theorem strLe_total (a b : String) : strLeP a b ∨ strLeP b a :=
  charsLe_total a.data b.data

theorem strLe_trans {a b c : String} (h1 : strLeP a b) (h2 : strLeP b c) :
    strLeP a c :=
  charsLe_trans a.data b.data c.data h1 h2

theorem strLe_antisymm {a b : String} (h1 : strLeP a b) (h2 : strLeP b a) :
    a = b :=
  String.toList_inj.mp (charsLe_antisymm a.data b.data h1 h2)

instance {α : Type} : IsTotal (String × α) leKey :=
  ⟨fun p q => strLe_total p.1 q.1⟩

instance {α : Type} : IsTrans (String × α) leKey :=
  ⟨fun _ _ _ => strLe_trans⟩

instance : IsAntisymm String strLeP :=
  ⟨fun _ _ => strLe_antisymm⟩

theorem sortByKey_perm {α : Type} (l : List (String × α)) :
    (sortByKey l).Perm l :=
  List.perm_insertionSort _ _

theorem sortByKey_sorted {α : Type} (l : List (String × α)) :
    List.Sorted leKey (sortByKey l) :=
  List.sorted_insertionSort _ _

theorem sortByKey_keys_sorted {α : Type} (l : List (String × α)) :
    List.Sorted strLeP ((sortByKey l).map Prod.fst) :=
  List.pairwise_map.mpr (sortByKey_sorted l)

theorem sorted_keys_eq {α β : Type} (kv : List (String × α))
    (ke : List (String × β))
    (h1 : (kv.map Prod.fst).Nodup) (h2 : (ke.map Prod.fst).Nodup)
    (hset : ∀ a, a ∈ kv.map Prod.fst ↔ a ∈ ke.map Prod.fst) :
    (sortByKey kv).map Prod.fst = (sortByKey ke).map Prod.fst := by
  apply List.eq_of_perm_of_sorted _ (sortByKey_keys_sorted kv) (sortByKey_keys_sorted ke)
  have p1 : ((sortByKey kv).map Prod.fst).Perm (kv.map Prod.fst) :=
    (sortByKey_perm kv).map Prod.fst
  have p2 : (kv.map Prod.fst).Perm (ke.map Prod.fst) :=
    (List.perm_ext_iff_of_nodup h1 h2).mpr hset
  have p3 : (ke.map Prod.fst).Perm ((sortByKey ke).map Prod.fst) :=
    ((sortByKey_perm ke).map Prod.fst).symm
  exact (p1.trans p2).trans p3

theorem zip_key_eq {α β : Type} :
    ∀ (l1 : List (String × α)) (l2 : List (String × β)),
      l1.map Prod.fst = l2.map Prod.fst →
      ∀ p ∈ l1.zip l2, p.1.1 = p.2.1
  | [], _, _, p, hp => by simp at hp
  | _ :: _, [], _, p, hp => by simp at hp
  | x :: xs, y :: ys, h, p, hp => by
    rw [List.zip_cons_cons] at hp
    simp only [List.map_cons, List.cons.injEq] at h
    rcases List.mem_cons.mp hp with hfirst | hrest
    · rw [hfirst]
      exact h.1
    · exact zip_key_eq xs ys h.2 p hrest

theorem lookupA_insertA_self {α : Type} (m : List (String × α)) (k : String)
    (v : α) : lookupA (insertA m k v) k = some v := by
  induction m with
  | nil => simp [insertA, lookupA]
  | cons p rest ih =>
    obtain ⟨k2, v2⟩ := p
    by_cases h : k2 = k
    · simp [insertA, h, lookupA]
    · simp [insertA, h, lookupA, ih]

theorem lookupA_insertA_ne {α : Type} (m : List (String × α)) (k k2 : String)
    (v : α) (h : k2 ≠ k) : lookupA (insertA m k v) k2 = lookupA m k2 := by
  induction m with
  | nil => simp [insertA, lookupA, Ne.symm h]
  | cons p rest ih =>
    obtain ⟨k3, v3⟩ := p
    by_cases h3 : k3 = k
    · simp [insertA, h3, lookupA, Ne.symm h]
    · by_cases h2 : k3 = k2
      · subst h2
        simp [insertA, h3, lookupA]
      · simp [insertA, h3, lookupA, h2, ih]

theorem hasKeyA_insertA {α : Type} (m : List (String × α)) (k k2 : String)
    (v : α) : hasKeyA (insertA m k v) k2 = true ↔ (k2 = k ∨ hasKeyA m k2 = true) := by
  by_cases h : k2 = k
  · subst h
    simp [hasKeyA, lookupA_insertA_self]
  · rw [hasKeyA, lookupA_insertA_ne m k k2 v h]
    simp [hasKeyA, h]

theorem hasKeyA_vivifyA {α : Type} (m : List (String × α)) (k k2 : String)
    (d : α) : hasKeyA (vivifyA m k d) k2 = true ↔ (k2 = k ∨ hasKeyA m k2 = true) := by
  rw [vivifyA]
  cases hv : lookupA m k with
  | some w =>
    constructor
    · exact fun h => Or.inr h
    · rintro (rfl | h)
      · simp [hasKeyA, hv]
      · exact h
  | none => exact hasKeyA_insertA m k k2 d

theorem mem_of_lookupA {α : Type} :
    ∀ (l : List (String × α)) (k : String) (x : α),
      lookupA l k = some x → (k, x) ∈ l
  | [], k, x, h => by simp [lookupA] at h
  | (k2, v2) :: rest, k, x, h => by
    by_cases he : k2 = k
    · subst he
      have h2 : v2 = x := by simpa [lookupA] using h
      rw [← h2]
      exact List.mem_cons_self _ _
    · simp only [lookupA, if_neg he] at h
      exact List.mem_cons_of_mem _ (mem_of_lookupA rest k x h)

theorem lookupA_eq_of_mem_nodup {α : Type} :
    ∀ (l : List (String × α)) (k : String) (x : α),
      (k, x) ∈ l → (l.map Prod.fst).Nodup → lookupA l k = some x
  | [], k, x, h, _ => by simp at h
  | (k2, v2) :: rest, k, x, h, hnd => by
    simp only [List.map_cons, List.nodup_cons] at hnd
    rcases List.mem_cons.mp h with heq | hmem
    · injection heq with e1 e2
      subst e1
      subst e2
      simp [lookupA]
    · have hne : k2 ≠ k := by
        intro he
        exact hnd.1 (he ▸ (List.mem_map.mpr ⟨(k, x), hmem, rfl⟩))
      simp only [lookupA, if_neg hne]
      exact lookupA_eq_of_mem_nodup rest k x hmem hnd.2

/-!
Further helper lemmas about record_mean, dump and close.
-/

theorem vivifyA_of_lookup_some {α : Type} (m : List (String × α)) (k : String)
    (d w : α) (h : lookupA m k = some w) : vivifyA m k d = m := by
  simp [vivifyA, h]

theorem record_mean_pynone (st : LoggerState) (k : String) (ex : Exclude) :
    Logger.record_mean st k PyVal.pynone ex =
      ({ st with name_to_value := insertA st.name_to_value k PyVal.pynone },
        Option.none) := by
  simp [Logger.record_mean]

theorem record_mean_num_of_getDA (st : LoggerState) (k : String) (x q : ℚ)
    (ex : Exclude) (hq : getDA st.name_to_value k (PyVal.num 0) = PyVal.num q) :
    Logger.record_mean st k (PyVal.num x) ex =
      ({ st with
          name_to_value := insertA st.name_to_value k
            (PyVal.num (q * ((getDA st.name_to_count k 0 : Nat) : ℚ) /
                (((getDA st.name_to_count k 0 : Nat) : ℚ) + 1) +
              x / (((getDA st.name_to_count k 0 : Nat) : ℚ) + 1))),
          name_to_count := insertA st.name_to_count k
            (getDA st.name_to_count k 0 + 1),
          name_to_excluded := insertA st.name_to_excluded k ex },
        Option.none) := by
  rw [Logger.record_mean, if_neg (by simp), hq]

theorem record_mean_state_shapes (st : LoggerState) (k : String)
    (value : PyVal) (ex : Exclude) :
    (Logger.record_mean st k value ex).1 =
        { st with name_to_value := insertA st.name_to_value k PyVal.pynone } ∨
    (∃ y, (Logger.record_mean st k value ex).1 =
        { st with
          name_to_value := insertA st.name_to_value k y,
          name_to_count := insertA st.name_to_count k
            (getDA st.name_to_count k 0 + 1),
          name_to_excluded := insertA st.name_to_excluded k ex }) ∨
    (Logger.record_mean st k value ex).1 =
        { st with
          name_to_value := vivifyA st.name_to_value k (PyVal.num 0),
          name_to_count := vivifyA st.name_to_count k 0 } := by
  by_cases h : value = PyVal.pynone
  · subst h
    left
    simp [Logger.record_mean]
  · rw [Logger.record_mean, if_neg h]
    rcases hod : getDA st.name_to_value k (PyVal.num 0) with q | s | _ | _ | _ | _ <;>
      rcases value with x | s2 | _ | _ | _ | _ <;>
      first
        | exact absurd rfl h
        | exact Or.inr (Or.inl ⟨_, rfl⟩)
        | exact Or.inr (Or.inr rfl)

theorem record_mean_num_err (st : LoggerState) (k : String) (x : ℚ)
    (ex : Exclude) (w : PyVal)
    (hw : lookupA st.name_to_value k = some w) (hnum : ∀ q : ℚ, w ≠ PyVal.num q) :
    Logger.record_mean st k (PyVal.num x) ex =
      ({ st with name_to_count := vivifyA st.name_to_count k 0 },
        some PyErr.typeError) := by
  have hod : getDA st.name_to_value k (PyVal.num 0) = w := by
    simp [getDA, hw]
  have hviv : vivifyA st.name_to_value k (PyVal.num 0) = st.name_to_value :=
    vivifyA_of_lookup_some _ _ _ _ hw
  rw [Logger.record_mean, if_neg (by simp), hod]
  rcases w with q | s | _ | _ | _ | _
  · exact absurd rfl (hnum q)
  all_goals simp [hviv]

/-!
Claim theorems.
-/

/-- Claim C10: for every key k and every state, after record_mean(k,
None), a subsequent record_mean(k, v) with a non-null numeric v does not
accumulate: it reaches the mean-update arithmetic with a null stored
value and raises a TypeError, so record_mean is not total over that call
sequence. -/
theorem record_mean_after_null_raises (st : LoggerState) (k : String)
    (ex ex2 : Exclude) (v : ℚ) :
    (Logger.record_mean (Logger.record_mean st k PyVal.pynone ex).1 k
        (PyVal.num v) ex2).2 = some PyErr.typeError := by
  rw [record_mean_pynone]
  rw [record_mean_num_err _ _ _ _ PyVal.pynone
    (lookupA_insertA_self _ _ _) (fun q h => by cases h)]

/-- Claim C3 counterexample: after record_mean("k", 3) followed by
record_mean("k", None), the stored value for k is null, but the count map
still records one contribution, so the state is not equivalent to never
having accumulated: a later record_mean("k", 5) raises a TypeError and in
particular does not store 5 as a first mean-contribution would. -/
theorem record_mean_null_not_reset :
    lookupA nullAfterMeanState.name_to_value "k" = some PyVal.pynone ∧
    lookupA nullAfterMeanState.name_to_count "k" = some 1 ∧
    (Logger.record_mean nullAfterMeanState "k" (PyVal.num 5) Exclude.absent).2
      = some PyErr.typeError ∧
    lookupA (Logger.record_mean nullAfterMeanState "k" (PyVal.num 5)
        Exclude.absent).1.name_to_value "k" ≠ some (PyVal.num 5) := by
  decide

/-- Claim C3 amended: record_mean(k, None) resets the stored value of k
to null and leaves the count map, the exclusion map and the level
untouched (so the count is not reset); a later record_mean(k, v) with a
numeric v raises a TypeError instead of behaving as a first
mean-contribution. -/
theorem record_mean_null_semantics (st : LoggerState) (k : String)
    (ex ex2 : Exclude) (v : ℚ) :
    lookupA (Logger.record_mean st k PyVal.pynone ex).1.name_to_value k
        = some PyVal.pynone ∧
    (Logger.record_mean st k PyVal.pynone ex).1.name_to_count
        = st.name_to_count ∧
    (Logger.record_mean st k PyVal.pynone ex).1.name_to_excluded
        = st.name_to_excluded ∧
    (Logger.record_mean st k PyVal.pynone ex).1.level = st.level ∧
    (Logger.record_mean (Logger.record_mean st k PyVal.pynone ex).1 k
        (PyVal.num v) ex2).2 = some PyErr.typeError := by
  rw [record_mean_pynone]
  refine ⟨lookupA_insertA_self _ _ _, rfl, rfl, rfl, ?_⟩
  rw [record_mean_num_err _ _ _ _ PyVal.pynone
    (lookupA_insertA_self _ _ _) (fun q h => by cases h)]

/-- Claim C6 counterexample: record_mean("k", 3, exclude "wandb")
followed by record_mean("k", None, exclude "tensorboard") leaves the
stored exclusion spec at "wandb": the null-value call did not overwrite
it, so not every record_mean call is last-write-wins on the exclusion
spec. -/
theorem record_mean_null_keeps_exclusion :
    lookupA exclOverwriteState.name_to_excluded "k"
        = some (Exclude.str "wandb") ∧
    lookupA exclOverwriteState.name_to_excluded "k"
        ≠ some (Exclude.str "tensorboard") := by
  decide

/-- Claim C6 amended: record_mean overwrites the stored exclusion spec
with its exclude argument on every call whose value is numeric and whose
stored value is numeric or absent (the calls that perform a mean update);
a call with a null value returns early and leaves the exclusion map
completely unchanged. -/
theorem record_mean_exclusion_semantics :
    (∀ (st : LoggerState) (k : String) (ex : Exclude) (v q : ℚ),
      getDA st.name_to_value k (PyVal.num 0) = PyVal.num q →
      lookupA (Logger.record_mean st k (PyVal.num v) ex).1.name_to_excluded k
        = some ex) ∧
    (∀ (st : LoggerState) (k : String) (ex : Exclude),
      (Logger.record_mean st k PyVal.pynone ex).1.name_to_excluded
        = st.name_to_excluded) := by
  constructor
  · intro st k ex v q hq
    rw [record_mean_num_of_getDA st k v q ex hq]
    exact lookupA_insertA_self _ _ _
  · intro st k ex
    rw [record_mean_pynone]

/-- Witness for the amended claim C6 at a concrete input. -/
theorem record_mean_exclusion_semantics_witness :
    lookupA (Logger.record_mean initLogger "k" (PyVal.num 3)
        (Exclude.str "wandb")).1.name_to_excluded "k"
      = some (Exclude.str "wandb") :=
  record_mean_exclusion_semantics.1 initLogger "k" (Exclude.str "wandb") 3 0
    (by decide)

/-- Claim C7 counterexample: with a first registered adapter whose close
raises and a second adapter after it, Logger.close invokes close only on
the first; the second adapter is never closed, so close does not attempt
every adapter when an earlier close fails. -/
theorem close_stops_at_first_error :
    Logger.close [failingCloser, okWriter]
      = (["failclose"], some PyErr.typeError) ∧
    "ok" ∉ (Logger.close [failingCloser, okWriter]).1 := by
  decide

/-- Claim C7 amended: Logger.close calls close on the adapters in
registration order, but stops at the first adapter whose close raises;
that error propagates and the remaining adapters are not closed.  When
every close succeeds, all adapters are closed in order. -/
theorem close_order_semantics :
    (∀ fmts : List Adapter, (∀ f ∈ fmts, f.closeRes = Option.none) →
      Logger.close fmts = (fmts.map Adapter.name, Option.none)) ∧
    (∀ (pre post : List Adapter) (f : Adapter) (e : PyErr),
      (∀ g ∈ pre, g.closeRes = Option.none) → f.closeRes = some e →
      Logger.close (pre ++ f :: post)
        = (pre.map Adapter.name ++ [f.name], some e)) := by
  constructor
  · intro fmts
    induction fmts with
    | nil => intro _; rfl
    | cons g rest ih =>
      intro h
      have hg : g.closeRes = Option.none := h g (List.mem_cons_self _ _)
      have hr := ih (fun f hf => h f (List.mem_cons_of_mem _ hf))
      simp [Logger.close, hg, hr]
  · intro pre post f e
    induction pre with
    | nil =>
      intro _ hf
      simp [Logger.close, hf]
    | cons g rest ih =>
      intro h hf
      have hg : g.closeRes = Option.none := h g (List.mem_cons_self _ _)
      have hr := ih (fun x hx => h x (List.mem_cons_of_mem _ hx)) hf
      simp [Logger.close, hg, hr]

/-- Witness for the amended claim C7 at concrete inputs: an all-ok list
closes everything in order, and a list with a failing close in the middle
stops there. -/
theorem close_order_semantics_witness :
    Logger.close [okWriter] = (["ok"], Option.none) ∧
    Logger.close ([okWriter] ++ failingCloser :: [okWriter])
      = (["ok", "failclose"], some PyErr.typeError) := by
  constructor
  · exact close_order_semantics.1 [okWriter]
      (fun f hf => by cases List.mem_singleton.mp hf; rfl)
  · exact close_order_semantics.2 [okWriter] [okWriter] failingCloser
      PyErr.typeError (fun f hf => by cases List.mem_singleton.mp hf; rfl) rfl

/-- Claim C1 counterexample: with a non-empty accumulation state and an
adapter whose write raises, dump propagates the error but does not clear
the maps: the value and exclusion maps are still non-empty afterwards, so
the clear is not unconditional. -/
theorem dump_error_leaves_state :
    (Logger.dump oneKeyState [failingWriter] 3).2 = some PyErr.typeError ∧
    (Logger.dump oneKeyState [failingWriter] 3).1.name_to_value ≠ [] ∧
    (Logger.dump oneKeyState [failingWriter] 3).1.name_to_excluded ≠ [] := by
  decide

/-- Claim C1 amended: when the level is not DISABLED and no key-value
adapter raises, dump clears the value, count and exclusion maps; when an
adapter raises, the error propagates to the caller of dump but the whole
state is left exactly as it was, so the accumulation state leaks into the
next step. -/
theorem dump_clear_semantics (st : LoggerState) (fmts : List Adapter)
    (step : Nat) :
    ((Logger.dump st fmts step).2 = Option.none → st.level ≠ DISABLED →
      (Logger.dump st fmts step).1.name_to_value = [] ∧
      (Logger.dump st fmts step).1.name_to_count = [] ∧
      (Logger.dump st fmts step).1.name_to_excluded = []) ∧
    (∀ e, (Logger.dump st fmts step).2 = some e →
      (Logger.dump st fmts step).1 = st) := by
  constructor
  · intro h2 hne
    rw [Logger.dump, if_neg hne] at h2 ⊢
    rcases hw : Logger.writeAll st.name_to_value st.name_to_excluded step fmts
      with _ | e
    · exact ⟨rfl, rfl, rfl⟩
    · rw [hw] at h2
      simp at h2
  · intro e h2
    rw [Logger.dump] at h2 ⊢
    by_cases hd : st.level = DISABLED
    · rw [if_pos hd] at h2
      simp at h2
    · rw [if_neg hd] at h2 ⊢
      rcases hw : Logger.writeAll st.name_to_value st.name_to_excluded step fmts
        with _ | e2
      · rw [hw] at h2
        simp at h2
      · rfl

/-- Witness for the amended claim C1 at concrete inputs: a successful
dump clears the three maps, and a failing dump leaves the state
unchanged. -/
theorem dump_clear_semantics_witness :
    ((Logger.dump oneKeyState [okWriter] 0).1.name_to_value = [] ∧
     (Logger.dump oneKeyState [okWriter] 0).1.name_to_count = [] ∧
     (Logger.dump oneKeyState [okWriter] 0).1.name_to_excluded = []) ∧
    (Logger.dump oneKeyState [failingWriter] 5).1 = oneKeyState := by
  constructor
  · exact (dump_clear_semantics oneKeyState [okWriter] 0).1 (by decide) (by decide)
  · exact (dump_clear_semantics oneKeyState [failingWriter] 5).2
      PyErr.typeError (by decide)

theorem log_fst (st : LoggerState) (fmts : List Adapter)
    (args : List String) (lvl : Nat) :
    (Logger.log st fmts args lvl).1 = st := by
  rw [Logger.log]
  by_cases h : st.level <= lvl
  · rw [if_pos h]
  · rw [if_neg h]

theorem runOpsT_fst :
    ∀ (ops : List LogOp) (st : LoggerState) (acc : List String),
      (Logger.runOpsT (st, acc) ops).1 = Logger.runOps st ops
  | [], _, _ => rfl
  | _ :: ops, _, _ => runOpsT_fst ops _ _

theorem runOpsT_count_touched :
    ∀ (ops : List LogOp) (st : LoggerState) (acc : List String),
      (∀ k, hasKeyA st.name_to_count k = true → k ∈ acc) →
      ∀ k, hasKeyA (Logger.runOpsT (st, acc) ops).1.name_to_count k = true →
        k ∈ (Logger.runOpsT (st, acc) ops).2
  | [], _, _, hinv => hinv
  | op :: ops, st, acc, hinv =>
    runOpsT_count_touched ops (Logger.applyOp st op)
      (Logger.touchedClearing st acc op) (by
        rcases op with ⟨k2, v, ex⟩ | ⟨k2, v, ex⟩ | ⟨fmts, step⟩ |
          ⟨fmts, args, lvl⟩ | lvl
        · exact fun k hk => hinv k hk
        · by_cases hv : v = PyVal.pynone
          · subst hv
            intro k hk
            have hcounts :
                (Logger.record_mean st k2 PyVal.pynone ex).1.name_to_count
                  = st.name_to_count := by
              rw [record_mean_pynone]
            rw [show Logger.applyOp st (LogOp.record_mean k2 PyVal.pynone ex)
                = (Logger.record_mean st k2 PyVal.pynone ex).1 from rfl,
              hcounts] at hk
            exact hinv k hk
          · intro k hk
            have htc : Logger.touchedClearing st acc
                (LogOp.record_mean k2 v ex) = k2 :: acc := by
              simp [Logger.touchedClearing, hv]
            rw [htc]
            rw [show Logger.applyOp st (LogOp.record_mean k2 v ex)
                = (Logger.record_mean st k2 v ex).1 from rfl] at hk
            rcases record_mean_state_shapes st k2 v ex with h | ⟨y, h⟩ | h <;>
              rw [h] at hk
            · exact List.mem_cons_of_mem _ (hinv k hk)
            · rcases (hasKeyA_insertA _ _ _ _).mp hk with rfl | h3
              · exact List.mem_cons_self _ _
              · exact List.mem_cons_of_mem _ (hinv k h3)
            · rcases (hasKeyA_vivifyA _ _ _ _).mp hk with rfl | h3
              · exact List.mem_cons_self _ _
              · exact List.mem_cons_of_mem _ (hinv k h3)
        · intro k hk
          by_cases hd : st.level = DISABLED
          · have hst : Logger.applyOp st (LogOp.dump fmts step) = st := by
              simp [Logger.applyOp, Logger.dump, hd]
            have htc : Logger.touchedClearing st acc (LogOp.dump fmts step)
                = acc := by
              simp [Logger.touchedClearing, Logger.dumpCleared, hd]
            rw [hst] at hk
            rw [htc]
            exact hinv k hk
          · rcases hw : Logger.writeAll st.name_to_value st.name_to_excluded
                step fmts with _ | e
            · have hst : (Logger.applyOp st (LogOp.dump fmts step)).name_to_count
                  = [] := by
                simp [Logger.applyOp, Logger.dump, hd, hw]
              rw [hst] at hk
              simp [hasKeyA, lookupA] at hk
            · have hst : Logger.applyOp st (LogOp.dump fmts step) = st := by
                simp [Logger.applyOp, Logger.dump, hd, hw]
              have htc : Logger.touchedClearing st acc (LogOp.dump fmts step)
                  = acc := by
                simp [Logger.touchedClearing, Logger.dumpCleared, hw]
              rw [hst] at hk
              rw [htc]
              exact hinv k hk
        · intro k hk
          rw [show Logger.applyOp st (LogOp.log fmts args lvl)
              = (Logger.log st fmts args lvl).1 from rfl, log_fst] at hk
          exact hinv k hk
        · exact fun k hk => hinv k hk)

/-- Claim C4 counterexample: record_mean("k", None) on a fresh logger
puts k into the value map without creating any entry in the exclusion
map, breaking the exclusion half of the invariant; and after the call
sequence record_mean("k", 1); dump with an adapter whose write raises,
the count map still has an entry for k although no non-null record_mean
has been called since that dump call, breaking the count half under the
reading where every dump call ends the accumulation cycle. -/
theorem invariant_broken_by_null_mean :
    (hasKeyA nullOnlyState.name_to_value "k" = true ∧
     hasKeyA nullOnlyState.name_to_excluded "k" = false) ∧
    (hasKeyA (Logger.runOps initLogger leakTrace).name_to_count "k" = true ∧
     meanTouchedPlain leakTrace = []) := by
  decide

/-- Claim C4 amended: record, record_mean with a numeric value, dump, log
and set_level preserve the invariant that every key of the value map has
an entry in the exclusion map, but record_mean with a null value can add
a key to the value map without an exclusion entry, breaking it.  The
count half holds in its provenance form relative to clearing dumps:
along every operation sequence from a fresh logger, the count map has an
entry only for keys on which record_mean with a non-null value has been
called since the last state-clearing dump — a dump at DISABLED level or
one aborted by a raising adapter does not clear, and count entries
survive such a dump. -/
theorem logger_invariant_semantics :
    (∀ (st : LoggerState) (k : String) (v : PyVal) (ex : Exclude),
      KeyInv st → KeyInv (Logger.record st k v ex)) ∧
    (∀ (st : LoggerState) (k : String) (x : ℚ) (ex : Exclude), KeyInv st →
      KeyInv (Logger.record_mean st k (PyVal.num x) ex).1) ∧
    (∀ (st : LoggerState) (fmts : List Adapter) (step : Nat),
      KeyInv st → KeyInv (Logger.dump st fmts step).1) ∧
    (∀ (st : LoggerState) (fmts : List Adapter) (args : List String)
      (lvl : Nat), (Logger.log st fmts args lvl).1 = st) ∧
    (∀ (st : LoggerState) (lvl : Nat), KeyInv st →
      KeyInv (Logger.set_level st lvl)) ∧
    (∀ (ops : List LogOp) (k : String),
      hasKeyA (Logger.runOps initLogger ops).name_to_count k = true →
      k ∈ (Logger.runOpsT (initLogger, []) ops).2) := by
  refine ⟨?_, ?_, ?_, ?_, ?_, ?_⟩
  · intro st k v ex hK
    intro k2 h2
    rcases (hasKeyA_insertA _ _ _ _).mp h2 with rfl | h3
    · exact (hasKeyA_insertA _ _ _ _).mpr (Or.inl rfl)
    · exact (hasKeyA_insertA _ _ _ _).mpr (Or.inr (hK k2 h3))
  · intro st k x ex hK
    rw [Logger.record_mean, if_neg (by simp)]
    rcases hod : getDA st.name_to_value k (PyVal.num 0) with q | s | _ | _ | _ | _
    case num =>
      intro k2 h2
      rcases (hasKeyA_insertA _ _ _ _).mp h2 with rfl | h3
      · exact (hasKeyA_insertA _ _ _ _).mpr (Or.inl rfl)
      · exact (hasKeyA_insertA _ _ _ _).mpr (Or.inr (hK k2 h3))
    all_goals {
      have hsome : ∃ w, lookupA st.name_to_value k = some w := by
        rcases hl : lookupA st.name_to_value k with _ | w
        · rw [getDA, hl] at hod
          simp at hod
        · exact ⟨w, rfl⟩
      rcases hsome with ⟨w, hw⟩
      rw [vivifyA_of_lookup_some _ _ _ w hw]
      exact hK
    }
  · intro st fmts step hK
    rw [Logger.dump]
    by_cases hd : st.level = DISABLED
    · rw [if_pos hd]
      exact hK
    · rw [if_neg hd]
      rcases Logger.writeAll st.name_to_value st.name_to_excluded step fmts
        with _ | e
      · intro k2 h2
        simp [hasKeyA, lookupA] at h2
      · exact hK
  · exact log_fst
  · intro st lvl hK
    exact hK
  · intro ops k hk
    apply runOpsT_count_touched ops initLogger []
      (fun k2 h => by simp [initLogger, hasKeyA, lookupA] at h)
    rw [runOpsT_fst]
    exact hk

/-- Witness for the amended claim C4 at concrete inputs: the exclusion
half is preserved through a record call on the fresh state, and after a
single non-null record_mean the count entry for k is justified by that
call in the touched set. -/
theorem logger_invariant_semantics_witness :
    KeyInv (Logger.record initLogger "k" (PyVal.num 1) Exclude.absent) ∧
    "k" ∈ (Logger.runOpsT (initLogger, [])
        [LogOp.record_mean "k" (PyVal.num 1) Exclude.absent]).2 := by
  constructor
  · exact logger_invariant_semantics.1 initLogger "k" (PyVal.num 1)
      Exclude.absent (fun k h => by simp [hasKeyA, lookupA] at h)
  · exact logger_invariant_semantics.2.2.2.2.2
      [LogOp.record_mean "k" (PyVal.num 1) Exclude.absent] "k" (by decide)

/-- Claim C9: in the human-readable adapter (the same write code runs for
both its stdout and its log-file instance), a key is skipped whenever its
paired exclusion spec contains the token stdout or the token log under
Python membership semantics, so a key excluded only for stdout is also
omitted by the log-file instance and vice versa; for a single-string spec
the test is a substring test, so the spec string dialog, which names
neither backend, still causes the key to be skipped. -/
theorem human_skip_semantics :
    (∀ (maxL : Nat) (f : ℚ → String) (acc : HumanOutputFormat.WriteAcc)
      (k : String) (v : PyVal) (k2 : String),
      HumanOutputFormat.writeStep maxL f acc ((k, v), (k2, Exclude.str "stdout"))
        = .ok acc) ∧
    (∀ (maxL : Nat) (f : ℚ → String) (acc : HumanOutputFormat.WriteAcc)
      (k : String) (v : PyVal) (k2 : String),
      HumanOutputFormat.writeStep maxL f acc ((k, v), (k2, Exclude.str "log"))
        = .ok acc) ∧
    (∀ (maxL : Nat) (f : ℚ → String) (acc : HumanOutputFormat.WriteAcc)
      (k : String) (v : PyVal) (k2 : String),
      HumanOutputFormat.writeStep maxL f acc
        ((k, v), (k2, Exclude.tup ["stdout"])) = .ok acc) ∧
    (∀ (maxL : Nat) (f : ℚ → String) (acc : HumanOutputFormat.WriteAcc)
      (k : String) (v : PyVal) (k2 : String),
      HumanOutputFormat.writeStep maxL f acc
        ((k, v), (k2, Exclude.tup ["log"])) = .ok acc) ∧
    (∀ (maxL : Nat) (f : ℚ → String) (acc : HumanOutputFormat.WriteAcc)
      (k : String) (v : PyVal) (k2 : String),
      HumanOutputFormat.writeStep maxL f acc ((k, v), (k2, Exclude.str "dialog"))
        = .ok acc) ∧
    (pyIn "log" "dialog" = true ∧ "dialog" ≠ "stdout" ∧ "dialog" ≠ "log") ∧
    HumanOutputFormat.write 36 (fun _ => "") [("k", PyVal.num 1)]
        [("k", Exclude.str "dialog")] 0 = .ok [] := by
  refine ⟨?_, ?_, ?_, ?_, ?_, by decide, by decide⟩ <;>
    (intro maxL f acc k v k2; rfl)

theorem runMeans_cons_ok (k : String) (ex : Exclude) (st st2 : LoggerState)
    (v : ℚ) (vs : List ℚ)
    (h : Logger.record_mean st k (PyVal.num v) ex = (st2, Option.none)) :
    Logger.runMeans k ex st (v :: vs) = Logger.runMeans k ex st2 vs := by
  simp [Logger.runMeans, h]

theorem runMeans_spec (k : String) (ex : Exclude) :
    ∀ (vs : List ℚ) (st : LoggerState) (s : ℚ) (m : Nat), 1 ≤ m →
      lookupA st.name_to_value k = some (PyVal.num s) →
      lookupA st.name_to_count k = some m →
      (Logger.runMeans k ex st vs).2 = Option.none ∧
      lookupA (Logger.runMeans k ex st vs).1.name_to_value k
        = some (PyVal.num ((s * (m : ℚ) + vs.sum) / ((m : ℚ) + (vs.length : ℚ)))) ∧
      lookupA (Logger.runMeans k ex st vs).1.name_to_count k
        = some (m + vs.length)
  | [], st, s, m, hm, hv, hc => by
    have hm0 : (m : ℚ) ≠ 0 := Nat.cast_ne_zero.mpr (by omega)
    have heq : s * (m : ℚ) / ((m : ℚ)) = s := mul_div_cancel_right₀ s hm0
    refine ⟨rfl, ?_, ?_⟩
    · show lookupA st.name_to_value k = _
      rw [hv]
      simp [heq]
    · show lookupA st.name_to_count k = _
      rw [hc]
      simp
  | v :: vs, st, s, m, hm, hv, hc => by
    have hod : getDA st.name_to_value k (PyVal.num 0) = PyVal.num s := by
      simp [getDA, hv]
    have hcd : getDA st.name_to_count k 0 = m := by
      simp [getDA, hc]
    have hrm := record_mean_num_of_getDA st k v s ex hod
    rw [hcd] at hrm
    have hrun := runMeans_cons_ok k ex st
      (Logger.record_mean st k (PyVal.num v) ex).1 v vs (by rw [hrm])
    have hv2 : lookupA (Logger.record_mean st k (PyVal.num v) ex).1.name_to_value k
        = some (PyVal.num (s * (m : ℚ) / ((m : ℚ) + 1) + v / ((m : ℚ) + 1))) := by
      rw [hrm]
      exact lookupA_insertA_self _ _ _
    have hc2 : lookupA (Logger.record_mean st k (PyVal.num v) ex).1.name_to_count k
        = some (m + 1) := by
      rw [hrm]
      exact lookupA_insertA_self _ _ _
    obtain ⟨h2, hval, hcnt⟩ :=
      runMeans_spec k ex vs (Logger.record_mean st k (PyVal.num v) ex).1
        (s * (m : ℚ) / ((m : ℚ) + 1) + v / ((m : ℚ) + 1)) (m + 1)
        (by omega) hv2 hc2
    have hm1 : ((m : ℚ) + 1) ≠ 0 := by positivity
    have harith :
        ((s * (m : ℚ) / ((m : ℚ) + 1) + v / ((m : ℚ) + 1)) * (((m + 1 : Nat)) : ℚ)
            + vs.sum) / ((((m + 1 : Nat)) : ℚ) + (vs.length : ℚ))
          = (s * (m : ℚ) + (v :: vs).sum) / ((m : ℚ) + (((v :: vs).length : Nat) : ℚ)) := by
      simp only [List.sum_cons, List.length_cons]
      push_cast
      rw [div_eq_div_iff (by positivity) (by positivity)]
      field_simp
      ring
    refine ⟨?_, ?_, ?_⟩
    · rw [hrun]
      exact h2
    · rw [hrun, hval, harith]
    · rw [hrun, hcnt]
      have : m + 1 + vs.length = m + (v :: vs).length := by
        simp [List.length_cons]
        omega
      rw [this]

theorem runMeans_fresh (st : LoggerState) (k : String) (ex : Exclude)
    (vs : List ℚ) (hne : vs ≠ [])
    (hc : lookupA st.name_to_count k = Option.none)
    (hv : ∀ p, lookupA st.name_to_value k = some p → ∃ q, p = PyVal.num q) :
    (Logger.runMeans k ex st vs).2 = Option.none ∧
    lookupA (Logger.runMeans k ex st vs).1.name_to_value k
      = some (PyVal.num (vs.sum / (vs.length : ℚ))) ∧
    lookupA (Logger.runMeans k ex st vs).1.name_to_count k = some vs.length := by
  rcases vs with _ | ⟨v, tl⟩
  · exact absurd rfl hne
  have hcd : getDA st.name_to_count k 0 = 0 := by
    simp [getDA, hc]
  obtain ⟨q0, hod⟩ : ∃ q0, getDA st.name_to_value k (PyVal.num 0) = PyVal.num q0 := by
    rcases hl : lookupA st.name_to_value k with _ | p
    · exact ⟨0, by simp [getDA, hl]⟩
    · obtain ⟨q, hq⟩ := hv p hl
      exact ⟨q, by simp [getDA, hl, hq]⟩
  have hrm := record_mean_num_of_getDA st k v q0 ex hod
  rw [hcd] at hrm
  have hrun := runMeans_cons_ok k ex st
    (Logger.record_mean st k (PyVal.num v) ex).1 v tl (by rw [hrm])
  have hv2 : lookupA (Logger.record_mean st k (PyVal.num v) ex).1.name_to_value k
      = some (PyVal.num (q0 * ((0 : Nat) : ℚ) / (((0 : Nat) : ℚ) + 1)
          + v / (((0 : Nat) : ℚ) + 1))) := by
    rw [hrm]
    exact lookupA_insertA_self _ _ _
  have hc2 : lookupA (Logger.record_mean st k (PyVal.num v) ex).1.name_to_count k
      = some 1 := by
    rw [hrm]
    exact lookupA_insertA_self _ _ _
  obtain ⟨h2, hval, hcnt⟩ :=
    runMeans_spec k ex tl (Logger.record_mean st k (PyVal.num v) ex).1
      (q0 * ((0 : Nat) : ℚ) / (((0 : Nat) : ℚ) + 1) + v / (((0 : Nat) : ℚ) + 1)) 1
      (by omega) hv2 hc2
  have harith :
      ((q0 * ((0 : Nat) : ℚ) / (((0 : Nat) : ℚ) + 1) + v / (((0 : Nat) : ℚ) + 1))
          * ((1 : Nat) : ℚ) + tl.sum) / (((1 : Nat) : ℚ) + (tl.length : ℚ))
        = (v :: tl).sum / (((v :: tl).length : Nat) : ℚ) := by
    simp only [List.sum_cons, List.length_cons]
    push_cast
    rw [div_eq_div_iff (by positivity) (by positivity)]
    ring
  refine ⟨?_, ?_, ?_⟩
  · rw [hrun]
    exact h2
  · rw [hrun, hval, harith]
  · rw [hrun, hcnt]
    have hl1 : 1 + tl.length = (v :: tl).length := by
      simp [List.length_cons, Nat.add_comm]
    rw [hl1]

/-- Claim C2: starting from a state with no prior mean-accumulation for
k, a sequence of n non-null numeric record_mean calls with no intervening
dump leaves the stored value for k at the exact arithmetic mean of the
contributions and the stored count at n; the result is independent of
call order; and each single call updates the stored value to
(old * n + v) / (n + 1) where n is the prior count (0 when none) and old
the prior stored value (0 when none). -/
theorem record_mean_running_mean :
    (∀ (st : LoggerState) (k : String) (ex : Exclude) (vs : List ℚ),
      vs ≠ [] →
      lookupA st.name_to_count k = Option.none →
      (∀ p, lookupA st.name_to_value k = some p → ∃ q, p = PyVal.num q) →
      (Logger.runMeans k ex st vs).2 = Option.none ∧
      lookupA (Logger.runMeans k ex st vs).1.name_to_value k
        = some (PyVal.num (vs.sum / (vs.length : ℚ))) ∧
      lookupA (Logger.runMeans k ex st vs).1.name_to_count k = some vs.length ∧
      (∀ vs2 : List ℚ, vs.Perm vs2 →
        lookupA (Logger.runMeans k ex st vs2).1.name_to_value k
          = lookupA (Logger.runMeans k ex st vs).1.name_to_value k)) ∧
    (∀ (st : LoggerState) (k : String) (ex : Exclude) (v q : ℚ) (n : Nat),
      getDA st.name_to_value k (PyVal.num 0) = PyVal.num q →
      getDA st.name_to_count k 0 = n →
      (Logger.record_mean st k (PyVal.num v) ex).2 = Option.none ∧
      lookupA (Logger.record_mean st k (PyVal.num v) ex).1.name_to_value k
        = some (PyVal.num ((q * (n : ℚ) + v) / ((n : ℚ) + 1))) ∧
      lookupA (Logger.record_mean st k (PyVal.num v) ex).1.name_to_count k
        = some (n + 1)) := by
  constructor
  · intro st k ex vs hne hc hv
    obtain ⟨h1, h2, h3⟩ := runMeans_fresh st k ex vs hne hc hv
    refine ⟨h1, h2, h3, ?_⟩
    intro vs2 hp
    have hne2 : vs2 ≠ [] := by
      intro h0
      rw [h0] at hp
      exact hne hp.eq_nil
    obtain ⟨_, h22, _⟩ := runMeans_fresh st k ex vs2 hne2 hc hv
    rw [h2, h22, hp.sum_eq, hp.length_eq]
  · intro st k ex v q n h1 h2
    have hrm := record_mean_num_of_getDA st k v q ex h1
    rw [h2] at hrm
    have harith : q * (n : ℚ) / ((n : ℚ) + 1) + v / ((n : ℚ) + 1)
        = (q * (n : ℚ) + v) / ((n : ℚ) + 1) := div_add_div_same _ _ _
    refine ⟨by rw [hrm], ?_, by rw [hrm]; exact lookupA_insertA_self _ _ _⟩
    rw [hrm]
    rw [show insertA st.name_to_value k
        (PyVal.num (q * (n : ℚ) / ((n : ℚ) + 1) + v / ((n : ℚ) + 1)))
      = insertA st.name_to_value k
        (PyVal.num ((q * (n : ℚ) + v) / ((n : ℚ) + 1))) by rw [harith]]
    exact lookupA_insertA_self _ _ _

/-- Witness for claim C2 at a concrete input: three contributions 1, 2, 6
on a fresh logger leave the stored value at their mean 3 and the count at
3. -/
theorem record_mean_running_mean_witness :
    (Logger.runMeans "k" Exclude.absent initLogger [1, 2, 6]).2 = Option.none ∧
    lookupA (Logger.runMeans "k" Exclude.absent initLogger
        [1, 2, 6]).1.name_to_value "k"
      = some (PyVal.num (([1, 2, 6] : List ℚ).sum
          / ((([1, 2, 6] : List ℚ).length : Nat) : ℚ))) ∧
    lookupA (Logger.runMeans "k" Exclude.absent initLogger
        [1, 2, 6]).1.name_to_count "k" = some 3 ∧
    ([1, 2, 6] : List ℚ).sum / ((([1, 2, 6] : List ℚ).length : Nat) : ℚ) = 3 := by
  obtain ⟨a, b, c, _⟩ := record_mean_running_mean.1 initLogger "k" Exclude.absent
    [1, 2, 6] (by simp) rfl (fun p h => by simp [initLogger, lookupA] at h)
  refine ⟨a, b, by simpa using c, by norm_num⟩

theorem truncate_length_le (maxL : Nat) (h3 : 3 ≤ maxL) (s : String) :
    (HumanOutputFormat.truncate maxL s).data.length ≤ maxL := by
  rw [HumanOutputFormat.truncate]
  by_cases h : s.data.length > maxL
  · rw [if_pos h]
    rw [String.data_append]
    show (s.data.take (maxL - 3) ++ ("..." : String).data).length ≤ maxL
    rw [List.length_append, List.length_take]
    have he3 : ("..." : String).data.length = 3 := rfl
    rw [he3]
    omega
  · rw [if_neg h]
    omega

theorem tagUpdate_key2str (maxL : Nat) (acc : HumanOutputFormat.WriteAcc)
    (key : String) :
    (HumanOutputFormat.tagUpdate maxL acc key).key2str = acc.key2str ∨
    ∃ t, (HumanOutputFormat.tagUpdate maxL acc key).key2str
      = acc.key2str ++ [(HumanOutputFormat.truncate maxL t, "")] := by
  rw [HumanOutputFormat.tagUpdate]
  rcases HumanOutputFormat.slashIdx key with _ | i
  · exact Or.inl rfl
  · dsimp only
    by_cases hi : 0 < i
    · rw [if_pos hi]
      by_cases ht : acc.tags.contains (String.mk (key.data.take (i + 1)))
      · rw [if_pos ht]
        exact Or.inl rfl
      · rw [if_neg ht]
        exact Or.inr ⟨String.mk (key.data.take (i + 1)), rfl⟩
    · rw [if_neg hi]
      exact Or.inl rfl

theorem writeStep_key2str_bound (maxL : Nat) (h3 : 3 ≤ maxL)
    (f : ℚ → String) (acc acc2 : HumanOutputFormat.WriteAcc)
    (p : (String × PyVal) × (String × Exclude))
    (hs : HumanOutputFormat.writeStep maxL f acc p = .ok acc2)
    (hacc : ∀ r ∈ acc.key2str,
      r.1.data.length ≤ maxL ∧ r.2.data.length ≤ maxL) :
    ∀ r ∈ acc2.key2str, r.1.data.length ≤ maxL ∧ r.2.data.length ≤ maxL := by
  rw [HumanOutputFormat.writeStep] at hs
  by_cases hskip : ((!p.2.2.isAbsent)
      && (p.2.2.hasTok "stdout" || p.2.2.hasTok "log")) = true
  · rw [if_pos hskip] at hs
    injection hs with hs
    rw [← hs]
    exact hacc
  · rw [if_neg hskip] at hs
    have hmid : ∀ r ∈ (HumanOutputFormat.tagUpdate maxL acc p.1.1).key2str,
        r.1.data.length ≤ maxL ∧ r.2.data.length ≤ maxL := by
      rcases tagUpdate_key2str maxL acc p.1.1 with h | ⟨t, h⟩ <;> rw [h]
      · exact hacc
      · intro r hr
        rcases List.mem_append.mp hr with h1 | h2
        · exact hacc r h1
        · rw [List.mem_singleton.mp h2]
          exact ⟨truncate_length_le maxL h3 t, by simp⟩
    rcases p with ⟨⟨key, value⟩, ke⟩
    rcases value with q | s | _ | _ | _ | _ <;>
      first
      | (injection hs with hs
         rw [← hs]
         intro r hr
         rcases List.mem_append.mp hr with h1 | h2
         · exact hmid r h1
         · rw [List.mem_singleton.mp h2]
           exact ⟨truncate_length_le maxL h3 _, truncate_length_le maxL h3 _⟩)
      | (cases hs)

theorem foldWrite_key2str_bound (maxL : Nat) (h3 : 3 ≤ maxL)
    (f : ℚ → String) :
    ∀ (ps : List ((String × PyVal) × (String × Exclude)))
      (acc r : HumanOutputFormat.WriteAcc),
      HumanOutputFormat.foldWrite maxL f acc ps = .ok r →
      (∀ row ∈ acc.key2str,
        row.1.data.length ≤ maxL ∧ row.2.data.length ≤ maxL) →
      ∀ row ∈ r.key2str, row.1.data.length ≤ maxL ∧ row.2.data.length ≤ maxL
  | [], acc, r, hf, hacc => by
    rw [HumanOutputFormat.foldWrite] at hf
    injection hf with hf
    rw [← hf]
    exact hacc
  | p :: ps, acc, r, hf, hacc => by
    rw [HumanOutputFormat.foldWrite] at hf
    rcases hw : HumanOutputFormat.writeStep maxL f acc p with e | acc2
    · rw [hw] at hf
      cases hf
    · rw [hw] at hf
      exact foldWrite_key2str_bound maxL h3 f ps acc2 r hf
        (writeStep_key2str_bound maxL h3 f acc acc2 p hw hacc)

/-- Claim C8: in the human-readable adapter, a displayed key or value
string longer than the configured maximum is truncated to its first
(max - 3) characters followed by the ellipsis marker; every displayed key
and value string produced by the loop is at most max long; and two
distinct keys whose displayed forms truncate to the identical string do
not raise an error: the write succeeds and both rows are rendered (four
lines: two border lines and the two rows). -/
theorem human_truncation_semantics :
    (∀ (maxL : Nat) (s : String), 3 ≤ maxL → s.data.length > maxL →
      HumanOutputFormat.truncate maxL s
        = String.mk (s.data.take (maxL - 3)) ++ "...") ∧
    (∀ (maxL : Nat) (s : String), 3 ≤ maxL →
      (HumanOutputFormat.truncate maxL s).data.length ≤ maxL) ∧
    (∀ (maxL : Nat) (f : ℚ → String)
      (ps : List ((String × PyVal) × (String × Exclude)))
      (r : HumanOutputFormat.WriteAcc), 3 ≤ maxL →
      HumanOutputFormat.foldWrite maxL f ⟨[], Option.none, []⟩ ps = .ok r →
      ∀ row ∈ r.key2str,
        row.1.data.length ≤ maxL ∧ row.2.data.length ≤ maxL) ∧
    (HumanOutputFormat.truncate 36 (aRun ++ "X")
        = HumanOutputFormat.truncate 36 (aRun ++ "Y") ∧
      aRun ++ "X" ≠ aRun ++ "Y" ∧
      (HumanOutputFormat.write 36 (fun _ => "")
          [(aRun ++ "X", PyVal.str "u"), (aRun ++ "Y", PyVal.str "v")]
          [(aRun ++ "X", Exclude.absent), (aRun ++ "Y", Exclude.absent)] 0).map
            List.length = Except.ok 4) := by
  refine ⟨?_, ?_, ?_, by decide, by decide, by decide⟩
  · intro maxL s _ hlong
    rw [HumanOutputFormat.truncate, if_pos hlong]
  · intro maxL s h3
    exact truncate_length_le maxL h3 s
  · intro maxL f ps r h3 hf
    exact foldWrite_key2str_bound maxL h3 f ps ⟨[], Option.none, []⟩ r hf
      (by intro row hrow; simp at hrow)

/-- Witness for claim C8 at concrete inputs: the 37-character key is
truncated to its first 33 characters plus the marker, its truncation is
at most 36 long, and the loop run on that single key yields a bounded
row. -/
theorem human_truncation_semantics_witness :
    HumanOutputFormat.truncate 36 (aRun ++ "X")
      = String.mk ((aRun ++ "X").data.take 33) ++ "..." ∧
    (HumanOutputFormat.truncate 36 (aRun ++ "X")).data.length ≤ 36 ∧
    ((HumanOutputFormat.truncate 36 (aRun ++ "X")).data.length ≤ 36 ∧
      ("u" : String).data.length ≤ 36) := by
  refine ⟨?_, ?_, ?_⟩
  · exact human_truncation_semantics.1 36 (aRun ++ "X") (by decide) (by decide)
  · exact human_truncation_semantics.2.1 36 (aRun ++ "X") (by decide)
  · exact human_truncation_semantics.2.2.1 36 (fun _ => "")
      [((aRun ++ "X", PyVal.str "u"), (aRun ++ "X", Exclude.absent))]
      ⟨[(HumanOutputFormat.truncate 36 (aRun ++ "X"), "u")], Option.none, []⟩
      (by decide) rfl
      (HumanOutputFormat.truncate 36 (aRun ++ "X"), "u")
      (List.mem_singleton.mpr rfl)

theorem tbEvents_key_eq (key : String) (v : PyVal) (step : Nat) :
    ∀ ev ∈ tbEvents key v step, TBEvent.key ev = key := by
  intro ev h
  rcases v with q | s | _ | _ | _ | _ <;> simp [tbEvents] at h <;>
    rw [h] <;> rfl

theorem tb_fold_no_key (step : Nat) (k : String) :
    ∀ (ps : List ((String × PyVal) × (String × Exclude)))
      (acc : List TBEvent),
      (∀ ev ∈ acc, TBEvent.key ev ≠ k) →
      (∀ p ∈ ps, p.1.1 = k →
        ((!p.2.2.isAbsent) && p.2.2.hasTok "tensorboard") = true) →
      ∀ ev ∈ ps.foldl (TensorBoardOutputFormat.writeStep step) acc,
        TBEvent.key ev ≠ k
  | [], acc, hacc, _ => hacc
  | p :: ps, acc, hacc, hps => by
    rw [List.foldl_cons]
    apply tb_fold_no_key step k ps
    · rw [TensorBoardOutputFormat.writeStep]
      by_cases hskip : ((!p.2.2.isAbsent) && p.2.2.hasTok "tensorboard") = true
      · rw [if_pos hskip]
        exact hacc
      · rw [if_neg hskip]
        intro ev hev
        rcases List.mem_append.mp hev with h1 | h2
        · exact hacc ev h1
        · rw [tbEvents_key_eq p.1.1 p.1.2 step ev h2]
          intro hk
          exact hskip (hps p (List.mem_cons_self _ _) hk)
    · exact fun p2 h2 => hps p2 (List.mem_cons_of_mem _ h2)

/-- Claim C5 counterexample: in the state reached by record_mean("a",
None); record("b", 2, exclude "tensorboard"); record("c", 3), the
exclusion map is missing the key a, the zipped sorted traversal pairs the
key b with the exclusion spec of c, and the TensorBoard adapter writes
the key b even though the exclusion spec stored for b names
tensorboard. -/
theorem tb_write_excluded_key_written :
    lookupA misalignedState.name_to_excluded "b"
        = some (Exclude.str "tensorboard") ∧
    TensorBoardOutputFormat.write misalignedState.name_to_value
        misalignedState.name_to_excluded 7 = [TBEvent.scalar "b" 2 7] := by
  decide

theorem zip_pair_spec (kv : List (String × PyVal))
    (ke : List (String × Exclude)) (k : String) (e : Exclude)
    (h1 : (kv.map Prod.fst).Nodup) (h2 : (ke.map Prod.fst).Nodup)
    (hset : ∀ a, a ∈ kv.map Prod.fst ↔ a ∈ ke.map Prod.fst)
    (hl : lookupA ke k = some e) :
    ∀ p ∈ (sortByKey kv).zip (sortByKey ke), p.1.1 = k → p.2.2 = e := by
  intro p hp hpk
  have hkeys := sorted_keys_eq kv ke h1 h2 hset
  have halign := zip_key_eq _ _ hkeys p hp
  have hk2 : p.2.1 = k := by
    rw [← halign]
    exact hpk
  have hp2ke : p.2 ∈ ke := (sortByKey_perm ke).subset (List.of_mem_zip hp).2
  have hlk : lookupA ke p.2.1 = some p.2.2 :=
    lookupA_eq_of_mem_nodup ke p.2.1 p.2.2 hp2ke h2
  rw [hk2, hl] at hlk
  exact (Option.some.inj hlk).symm

theorem tb_write_skip_aligned (kv : List (String × PyVal))
    (ke : List (String × Exclude)) (step : Nat) (k : String) (e : Exclude)
    (h1 : (kv.map Prod.fst).Nodup) (h2 : (ke.map Prod.fst).Nodup)
    (hset : ∀ a, a ∈ kv.map Prod.fst ↔ a ∈ ke.map Prod.fst)
    (hl : lookupA ke k = some e)
    (he : ((!e.isAbsent) && e.hasTok "tensorboard") = true) :
    (TensorBoardOutputFormat.write kv ke step).filter
      (fun ev => TBEvent.key ev == k) = [] := by
  rw [TensorBoardOutputFormat.write]
  rw [List.filter_eq_nil_iff]
  intro ev hev
  have hmain := tb_fold_no_key step k ((sortByKey kv).zip (sortByKey ke)) []
    (by intro ev2 h; simp at h) ?_ ev hev
  · simpa using hmain
  · intro p hp hpk
    rw [zip_pair_spec kv ke k e h1 h2 hset hl p hp hpk]
    exact he

theorem human_write_step_skip (maxL : Nat) (f : ℚ → String)
    (acc : HumanOutputFormat.WriteAcc)
    (p : (String × PyVal) × (String × Exclude))
    (hc : ((!p.2.2.isAbsent)
      && (p.2.2.hasTok "stdout" || p.2.2.hasTok "log")) = true) :
    HumanOutputFormat.writeStep maxL f acc p = .ok acc := by
  rw [HumanOutputFormat.writeStep, if_pos hc]

theorem foldWrite_skip_filter (maxL : Nat) (f : ℚ → String)
    (pred : (String × PyVal) × (String × Exclude) → Bool) :
    ∀ (ps : List ((String × PyVal) × (String × Exclude)))
      (acc : HumanOutputFormat.WriteAcc),
      (∀ (acc2 : HumanOutputFormat.WriteAcc) p, p ∈ ps → pred p = true →
        HumanOutputFormat.writeStep maxL f acc2 p = .ok acc2) →
      HumanOutputFormat.foldWrite maxL f acc ps
        = HumanOutputFormat.foldWrite maxL f acc (ps.filter (fun p => !(pred p)))
  | [], _, _ => rfl
  | p :: ps, acc, h => by
    by_cases hp : pred p = true
    · rw [List.filter_cons_of_neg (by simp [hp])]
      rw [HumanOutputFormat.foldWrite, h acc p (List.mem_cons_self _ _) hp]
      exact foldWrite_skip_filter maxL f pred ps acc
        (fun acc2 q hq => h acc2 q (List.mem_cons_of_mem _ hq))
    · rw [List.filter_cons_of_pos (by simp [hp])]
      rw [HumanOutputFormat.foldWrite, HumanOutputFormat.foldWrite]
      rcases HumanOutputFormat.writeStep maxL f acc p with e | acc2
      · rfl
      · exact foldWrite_skip_filter maxL f pred ps acc2
          (fun acc3 q hq => h acc3 q (List.mem_cons_of_mem _ hq))

/-- Claim C5 amended: when the value map and the exclusion map passed to
a key-value write contain exactly the same keys (with no duplicates, as
Python dicts guarantee), every key whose exclusion spec names the
backend identity of the adapter is skipped entirely and contributes
nothing to the output — for the TensorBoard adapter no emitted event
carries the key, and for the human-readable adapter every loop iteration
whose pair carries the key leaves the accumulator untouched, so the loop
result equals the result of the traversal with the pairs of that key
removed; when the exclusion map lacks keys of the value map (reachable
through record_mean with a null value), the sorted-zip pairing misaligns
the specs and an excluded key can be written. -/
theorem kv_write_skip_semantics (kv : List (String × PyVal))
    (ke : List (String × Exclude)) (k : String) (e : Exclude)
    (h1 : (kv.map Prod.fst).Nodup) (h2 : (ke.map Prod.fst).Nodup)
    (hset : ∀ a, a ∈ kv.map Prod.fst ↔ a ∈ ke.map Prod.fst)
    (hl : lookupA ke k = some e) :
    (((!e.isAbsent) && e.hasTok "tensorboard") = true →
      ∀ step : Nat, (TensorBoardOutputFormat.write kv ke step).filter
        (fun ev => TBEvent.key ev == k) = []) ∧
    (((!e.isAbsent) && (e.hasTok "stdout" || e.hasTok "log")) = true →
      ∀ (maxL : Nat) (f : ℚ → String),
        (∀ (acc : HumanOutputFormat.WriteAcc)
          (p : (String × PyVal) × (String × Exclude)),
          p ∈ (sortByKey kv).zip (sortByKey ke) → p.1.1 = k →
          HumanOutputFormat.writeStep maxL f acc p = .ok acc) ∧
        HumanOutputFormat.foldWrite maxL f ⟨[], Option.none, []⟩
            ((sortByKey kv).zip (sortByKey ke))
          = HumanOutputFormat.foldWrite maxL f ⟨[], Option.none, []⟩
              (((sortByKey kv).zip (sortByKey ke)).filter
                (fun p => !(p.1.1 == k)))) := by
  constructor
  · intro he step
    exact tb_write_skip_aligned kv ke step k e h1 h2 hset hl he
  · intro he maxL f
    have hstep : ∀ (acc : HumanOutputFormat.WriteAcc)
        (p : (String × PyVal) × (String × Exclude)),
        p ∈ (sortByKey kv).zip (sortByKey ke) → p.1.1 = k →
        HumanOutputFormat.writeStep maxL f acc p = .ok acc := by
      intro acc p hp hpk
      apply human_write_step_skip
      rw [zip_pair_spec kv ke k e h1 h2 hset hl p hp hpk]
      exact he
    refine ⟨hstep, ?_⟩
    apply foldWrite_skip_filter maxL f (fun p => p.1.1 == k)
    intro acc2 p hp hpred
    exact hstep acc2 p hp (by simpa using hpred)

/-- Witness for the amended claim C5 at concrete inputs: with aligned
maps over the keys a and b, the TensorBoard output contains nothing
under a when a is excluded for tensorboard, and when a is excluded for
stdout the human-readable loop skips the pair of a and its result equals
the result of the traversal without that pair. -/
theorem kv_write_skip_semantics_witness :
    (TensorBoardOutputFormat.write kvW keW 0).filter
        (fun ev => TBEvent.key ev == "a") = [] ∧
    HumanOutputFormat.writeStep 36 (fun _ => "") ⟨[], Option.none, []⟩
        (("a", PyVal.num 1), ("a", Exclude.str "stdout"))
      = .ok ⟨[], Option.none, []⟩ ∧
    HumanOutputFormat.foldWrite 36 (fun _ => "") ⟨[], Option.none, []⟩
        ((sortByKey kvW).zip (sortByKey keWH))
      = HumanOutputFormat.foldWrite 36 (fun _ => "") ⟨[], Option.none, []⟩
          (((sortByKey kvW).zip (sortByKey keWH)).filter
            (fun p => !(p.1.1 == "a"))) := by
  refine ⟨?_, ?_, ?_⟩
  · exact (kv_write_skip_semantics kvW keW "a" (Exclude.str "tensorboard")
      (by decide) (by decide) (fun a => Iff.rfl) (by decide)).1 (by decide) 0
  · exact ((kv_write_skip_semantics kvW keWH "a" (Exclude.str "stdout")
      (by decide) (by decide) (fun a => Iff.rfl) (by decide)).2 (by decide)
        36 (fun _ => "")).1 ⟨[], Option.none, []⟩
        (("a", PyVal.num 1), ("a", Exclude.str "stdout")) (by decide) rfl
  · exact ((kv_write_skip_semantics kvW keWH "a" (Exclude.str "stdout")
      (by decide) (by decide) (fun a => Iff.rfl) (by decide)).2 (by decide)
        36 (fun _ => "")).2
